import Mathlib

/-!
Verification of the Trxchecker repository (src/firestoredb.py, src/main.py)
against its natural-language specification.

The Python source is shallowly embedded: the SQLite-backed transaction store
becomes a list of records with the PRIMARY KEY constraint made explicit, the
retry loop of `main` becomes a step function over an explicit bot state, the
regex patterns registered by `register_transaction_commands` become executable
matchers on character lists, and the double-checked-locking initialization of
`init_database` becomes a labelled transition system over per-thread program
counters.  Timestamps are abstracted to naturals (the ISO string produced by
`_get_current_timestamp` is monotone in real time); amounts are rationals
(the store performs no arithmetic on them, `float(amount)` is the identity on
payloads that are already numbers).
-/

namespace Trxchecker

/-! ## Transaction store (src/firestoredb.py)

The `transactions` table created by `init_database`:
  trxid TEXT PRIMARY KEY, amount REAL NOT NULL, gateway TEXT NOT NULL,
  created_at TEXT DEFAULT CURRENT_TIMESTAMP.
A row is a `TransactionRecord`; the table is a list of rows, with the
PRIMARY KEY uniqueness enforced by `save_transaction` itself (the INSERT
raises `IntegrityError` on a duplicate `trxid`, `execute_query` rolls back
and re-raises, and `save_transaction` catches it and returns `False`). -/

structure TransactionRecord where
  trxid : String
  amount : ℚ
  gateway : String
  created_at : ℕ
deriving DecidableEq, Repr

abbrev Store := List TransactionRecord

/-- `get_transaction(trxid)`: SELECT * FROM transactions WHERE trxid = ?
with fetch_one, on a healthy database (the exception path of the Python
function is modelled separately by `get_transaction_result`). -/
def get_transaction (store : Store) (trxid : String) : Option TransactionRecord :=
  store.find? (fun r => r.trxid == trxid)

/-- `save_transaction(trxid, amount, gateway)`: INSERT of a fresh row whose
`created_at` is `_get_current_timestamp()` evaluated at the call (`now`).
A duplicate `trxid` violates the PRIMARY KEY: the statement raises, the
transaction is rolled back and the function returns `False` leaving the
table unchanged; otherwise the row is inserted and it returns `True`. -/
def save_transaction (store : Store) (trxid : String) (amount : ℚ)
    (gateway : String) (now : ℕ) : Bool × Store :=
  if store.any (fun r => r.trxid == trxid) then
    (false, store)
  else
    (true, { trxid := trxid, amount := amount, gateway := gateway,
             created_at := now } :: store)

/-- C1 -- For every `trxid` already present in the store, a second save with
the same `trxid` fails (returns `False` rather than overwriting) and the
original record, with its amount, gateway and created_at, is unchanged. -/
theorem save_transaction_duplicate_fails (store : Store) (trxid : String)
    (a : ℚ) (g : String) (t : ℕ) (r : TransactionRecord)
    (h : get_transaction store trxid = some r) :
    (save_transaction store trxid a g t).1 = false ∧
    (save_transaction store trxid a g t).2 = store ∧
    get_transaction (save_transaction store trxid a g t).2 trxid = some r := by
  have h' : store.find? (fun x => x.trxid == trxid) = some r := h
  have hmem : r ∈ store := List.mem_of_find?_eq_some h'
  have hpred := List.find?_some (p := fun x : TransactionRecord => x.trxid == trxid) h'
  have hany : store.any (fun x => x.trxid == trxid) = true :=
    List.any_eq_true.mpr ⟨r, hmem, hpred⟩
  unfold save_transaction
  rw [if_pos hany]
  exact ⟨rfl, rfl, h⟩

/-- Witness for C1: a concrete store holding "DBR3IBG8W3"; a second save of
the same id fails and leaves the record intact. -/
theorem save_transaction_duplicate_fails_witness :
    get_transaction [⟨"DBR3IBG8W3", 1785, "bKash", 7⟩] "DBR3IBG8W3" =
      some ⟨"DBR3IBG8W3", 1785, "bKash", 7⟩ ∧
    ((save_transaction [⟨"DBR3IBG8W3", 1785, "bKash", 7⟩] "DBR3IBG8W3" 2000 "Nagad" 9).1 = false ∧
     (save_transaction [⟨"DBR3IBG8W3", 1785, "bKash", 7⟩] "DBR3IBG8W3" 2000 "Nagad" 9).2 =
       [⟨"DBR3IBG8W3", 1785, "bKash", 7⟩] ∧
     get_transaction (save_transaction [⟨"DBR3IBG8W3", 1785, "bKash", 7⟩]
         "DBR3IBG8W3" 2000 "Nagad" 9).2 "DBR3IBG8W3" =
       some ⟨"DBR3IBG8W3", 1785, "bKash", 7⟩) :=
  ⟨by decide,
   save_transaction_duplicate_fails [⟨"DBR3IBG8W3", 1785, "bKash", 7⟩]
     "DBR3IBG8W3" 2000 "Nagad" 9 ⟨"DBR3IBG8W3", 1785, "bKash", 7⟩ (by decide)⟩

/-- C2 -- For every `trxid` not previously saved, `save_transaction` then
`get_transaction` returns a record whose amount and gateway equal exactly the
submitted values and whose created_at is no earlier than the time of the save
call. -/
theorem save_then_get_fresh (store : Store) (trxid : String) (a : ℚ)
    (g : String) (t : ℕ) (h : get_transaction store trxid = none) :
    (save_transaction store trxid a g t).1 = true ∧
    get_transaction (save_transaction store trxid a g t).2 trxid =
      some { trxid := trxid, amount := a, gateway := g, created_at := t } ∧
    ∀ r, get_transaction (save_transaction store trxid a g t).2 trxid = some r →
      r.amount = a ∧ r.gateway = g ∧ t ≤ r.created_at := by
  have hnone : ∀ x ∈ store, ¬ ((fun r => r.trxid == trxid) x = true) :=
    List.find?_eq_none.mp h
  have hany : store.any (fun r => r.trxid == trxid) = false := by
    rw [List.any_eq_false]
    exact hnone
  unfold save_transaction
  rw [if_neg (by rw [hany]; exact Bool.false_ne_true)]
  refine ⟨rfl, ?_, ?_⟩
  · simp [get_transaction, List.find?]
  · intro r hr
    simp [get_transaction, List.find?] at hr
    subst hr
    exact ⟨rfl, rfl, Nat.le_refl t⟩

/-- Witness for C2: saving "DBR3IBG8W3" into an empty store and reading it
back yields exactly the submitted amount and gateway and a timestamp no
earlier than the call time. -/
theorem save_then_get_fresh_witness :
    get_transaction [] "DBR3IBG8W3" = none ∧
    ((save_transaction [] "DBR3IBG8W3" 1785 "bKash" 42).1 = true ∧
     get_transaction (save_transaction [] "DBR3IBG8W3" 1785 "bKash" 42).2 "DBR3IBG8W3" =
       some { trxid := "DBR3IBG8W3", amount := 1785, gateway := "bKash", created_at := 42 } ∧
     ∀ r, get_transaction (save_transaction [] "DBR3IBG8W3" 1785 "bKash" 42).2
         "DBR3IBG8W3" = some r →
       r.amount = 1785 ∧ r.gateway = "bKash" ∧ 42 ≤ r.created_at) :=
  ⟨rfl, save_then_get_fresh [] "DBR3IBG8W3" 1785 "bKash" 42 rfl⟩

/-! ## Fallible query layer (src/firestoredb.py `execute_query`,
`get_transaction`; src/main.py `cmd_check`)

`execute_query` may raise (I/O failure, missing schema); its outcome is
embedded as an `Except`: `.error e` is a raised exception (after rollback),
`.ok row` is a fetched row (or none).  `get_transaction` wraps the call in
try/except and returns `None` on any exception. -/

/-- The body of `get_transaction`: the `try` returns whatever
`execute_query(..., fetch_one=True)` fetched, the `except` prints and
returns `None`. -/
def get_transaction_result (q : Except String (Option TransactionRecord)) :
    Option TransactionRecord :=
  match q with
  | Except.ok row => row
  | Except.error _ => none

/-- The reply sent by the `/check` handler in `register_transaction_commands`. -/
inductive CheckReply
  | notFound (trxid : String)
  | found (r : TransactionRecord)
deriving DecidableEq, Repr

/-- `cmd_check`: looks up the trxid; `if not trx` it replies with the
not-found message, otherwise with the found message carrying the record. -/
def cmd_check (trxid : String) (q : Except String (Option TransactionRecord)) :
    CheckReply :=
  match get_transaction_result q with
  | none => CheckReply.notFound trxid
  | some r => CheckReply.found r

/-- C10 -- `get_transaction` never raises: a query exception is returned as
`None`, indistinguishable at the interface from a missing record, and
`cmd_check` replies with its not-found message in both cases. -/
theorem get_transaction_absorbs_errors (trxid e : String) :
    get_transaction_result (Except.error e) = none ∧
    cmd_check trxid (Except.error e) = CheckReply.notFound trxid ∧
    cmd_check trxid (Except.ok none) = CheckReply.notFound trxid ∧
    cmd_check trxid (Except.error e) = cmd_check trxid (Except.ok none) :=
  ⟨rfl, rfl, rfl, rfl⟩

/-! ## Ingest endpoint (src/main.py `receive_sms`)

POST /sendsms: the Authorization header is compared to MAIN_AUTH before
anything touches the store; a mismatch raises HTTPException(401), a failed
save raises HTTPException(500), success returns the confirmation echoing
the trxid. -/

/-- The payload model `SMSPayload` of main.py. -/
structure SMSPayload where
  trxid : String
  amount : ℚ
  gateway : String

/-- HTTP-level outcome of `receive_sms`. -/
inductive SmsResponse
  | unauthorized401
  | serverError500
  | success (trxid : String)
deriving DecidableEq, Repr

/-- `receive_sms`: auth check first (401 on mismatch, before any store
access), then `save_transaction`; `False` from the save yields 500, `True`
yields the success confirmation. -/
def receive_sms (authHeader MAIN_AUTH : String) (p : SMSPayload)
    (store : Store) (now : ℕ) : SmsResponse × Store :=
  if authHeader ≠ MAIN_AUTH then
    (SmsResponse.unauthorized401, store)
  else
    match save_transaction store p.trxid p.amount p.gateway now with
    | (false, s) => (SmsResponse.serverError500, s)
    | (true, s) => (SmsResponse.success p.trxid, s)

/-- C7 -- An ingest request whose Authorization header does not equal the
configured shared secret is rejected with 401 and the store is unchanged
(no record is created; the save is attempted only after the comparison
succeeds). -/
theorem receive_sms_rejects_bad_auth (authHeader MAIN_AUTH : String)
    (p : SMSPayload) (store : Store) (now : ℕ)
    (h : authHeader ≠ MAIN_AUTH) :
    receive_sms authHeader MAIN_AUTH p store now =
      (SmsResponse.unauthorized401, store) := by
  unfold receive_sms
  rw [if_pos h]

/-- Witness for C7: a concrete wrong secret is rejected and an empty store
stays empty. -/
theorem receive_sms_rejects_bad_auth_witness :
    "wrong-secret" ≠ "MAIN_AUTH_VALUE" ∧
    receive_sms "wrong-secret" "MAIN_AUTH_VALUE"
        ⟨"DBR3IBG8W3", 1785, "bKash"⟩ [] 0 =
      (SmsResponse.unauthorized401, []) :=
  ⟨by decide,
   receive_sms_rejects_bad_auth "wrong-secret" "MAIN_AUTH_VALUE"
     ⟨"DBR3IBG8W3", 1785, "bKash"⟩ [] 0 (by decide)⟩

/-! ## Module loader (src/main.py `load_all_commands`)

Each discovered file is imported (or reloaded) and its `register` entry
point invoked inside a per-module `try`: an exception anywhere in the
iteration body counts the module as failed; a module without a `register`
attribute is counted as failed without raising; either way the `for` loop
continues with the next module.  A module's observable behaviour for this
claim is whether its import/registration raises and whether it exposes
`register`. -/

structure CommandModuleBehavior where
  name : String
  raises : Bool
  hasRegister : Bool
deriving DecidableEq, Repr

/-- One iteration of the `for command_file in command_files` loop: updates
the `(loaded_count, failed_count)` pair. -/
def load_one_command (acc : ℕ × ℕ) (m : CommandModuleBehavior) : ℕ × ℕ :=
  if m.raises then (acc.1, acc.2 + 1)
  else if m.hasRegister then (acc.1 + 1, acc.2)
  else (acc.1, acc.2 + 1)

/-- `load_all_commands` over an already-discovered, sorted list of module
behaviours: folds the per-module iteration from `(0, 0)`. -/
def load_all_commands (mods : List CommandModuleBehavior) : ℕ × ℕ :=
  mods.foldl load_one_command (0, 0)

/-- A module loads successfully iff it does not raise and exposes `register`. -/
def loadsOk (m : CommandModuleBehavior) : Bool :=
  !m.raises && m.hasRegister

theorem load_all_commands_foldl (mods : List CommandModuleBehavior)
    (a b : ℕ) :
    mods.foldl load_one_command (a, b) =
      (a + mods.countP loadsOk, b + mods.countP (fun m => !(loadsOk m))) := by
  induction mods generalizing a b with
  | nil => simp
  | cons m ms ih =>
    have hstep : load_one_command (a, b) m =
        if loadsOk m then (a + 1, b) else (a, b + 1) := by
      unfold load_one_command loadsOk
      by_cases hr : m.raises <;> by_cases hg : m.hasRegister <;> simp [hr, hg]
    rw [List.foldl_cons, hstep, List.countP_cons, List.countP_cons]
    by_cases hm : loadsOk m
    · rw [if_pos hm, ih]
      simp [hm]
      omega
    · rw [if_neg hm, ih]
      simp [Bool.not_eq_true] at hm
      simp [hm]
      omega

/-- C8 -- Module loading is fault-isolated: every module in the sequence is
classified (a raising module and a module without `register` count as
failed, the rest as loaded), independently of where in the sequence the
failures occur, so a failure never prevents subsequent modules from being
processed and `load_all_commands` always returns the aggregate counts with
loaded + failed = total. -/
theorem load_all_commands_fault_isolated (mods : List CommandModuleBehavior) :
    load_all_commands mods =
      (mods.countP loadsOk, mods.countP (fun m => !(loadsOk m))) ∧
    (load_all_commands mods).1 + (load_all_commands mods).2 = mods.length ∧
    ∀ pre m post, mods = pre ++ m :: post →
      load_all_commands mods =
        ((load_all_commands pre).1 + (if loadsOk m then 1 else 0) +
           (load_all_commands post).1,
         (load_all_commands pre).2 + (if loadsOk m then 0 else 1) +
           (load_all_commands post).2) := by
  have hmain : ∀ l : List CommandModuleBehavior, load_all_commands l =
      (l.countP loadsOk, l.countP (fun m => !(loadsOk m))) := by
    intro l
    have := load_all_commands_foldl l 0 0
    simpa [load_all_commands] using this
  have hsum : ∀ l : List CommandModuleBehavior,
      l.countP loadsOk + l.countP (fun m => !(loadsOk m)) = l.length := by
    intro l
    induction l with
    | nil => simp
    | cons x xs ih =>
      rw [List.countP_cons, List.countP_cons, List.length_cons]
      by_cases h : loadsOk x
      · simp [h]
        omega
      · simp [Bool.not_eq_true] at h
        simp [h]
        omega
  refine ⟨hmain mods, ?_, ?_⟩
  · rw [hmain mods]
    exact hsum mods
  · intro pre m post hsplit
    subst hsplit
    rw [hmain (pre ++ m :: post), hmain pre, hmain post]
    rw [List.countP_append, List.countP_append, List.countP_cons, List.countP_cons]
    by_cases hm : loadsOk m = true
    · simp [hm]
      omega
    · simp [hm]
      omega

/-! ## Case-insensitive prefix matcher (src/main.py
`make_prefix_case_insensitive`)

The Python function maps each character `c` of the prefix to the regex
fragment `[Cc]` when `c.isalpha()` and to `re.escape(c)` otherwise, and
concatenates the fragments.  Each fragment consumes exactly one character:
the character class `[Cc]` accepts `c.upper()` and `c.lower()`, the escaped
character accepts only `c` itself.  The produced regex is matched at the
start of the message (re.match semantics), so the matcher accepts a string
iff its first `len(prefix)` characters are consumed by the fragments. -/

/-- One regex fragment emitted per prefix character. -/
inductive RegexAtom
  | caseClass (c : Char)
  | literal (c : Char)
deriving DecidableEq, Repr

def make_prefix_case_insensitive (pfx : String) : List RegexAtom :=
  pfx.toList.map (fun c =>
    if c.isAlpha then RegexAtom.caseClass c else RegexAtom.literal c)

/-- What a single fragment accepts: `[Cc]` accepts the upper- and lower-case
variants of the letter, an escaped character accepts only itself. -/
def atomMatches : RegexAtom → Char → Bool
  | RegexAtom.caseClass c, d => d == c.toUpper || d == c.toLower
  | RegexAtom.literal c, d => d == c

/-- re.match of the concatenated fragments against the start of a string:
each fragment consumes one character, the rest of the string is free. -/
def regexMatchesStart : List RegexAtom → List Char → Bool
  | [], _ => true
  | _ :: _, [] => false
  | a :: as, d :: ds => atomMatches a d && regexMatchesStart as ds

/-- C6 -- The matcher built by `make_prefix_case_insensitive` accepts the
prefix's character sequence in any letter-casing (an alphabetic prefix
character matches exactly its two case variants) while a non-letter prefix
character matches only itself; in particular the matcher built from `"."`
accepts `".check X"`, `".CHECK X"` and `".ChEcK X"` identically and rejects
`"!check X"`. -/
theorem make_prefix_case_insensitive_spec :
    (∀ c d : Char, c.isAlpha →
      (atomMatches (if c.isAlpha then RegexAtom.caseClass c
                    else RegexAtom.literal c) d = true ↔
        (d = c.toUpper ∨ d = c.toLower))) ∧
    (∀ c d : Char, ¬ c.isAlpha →
      (atomMatches (if c.isAlpha then RegexAtom.caseClass c
                    else RegexAtom.literal c) d = true ↔ d = c)) ∧
    regexMatchesStart (make_prefix_case_insensitive ".") ".check X".toList = true ∧
    regexMatchesStart (make_prefix_case_insensitive ".") ".CHECK X".toList = true ∧
    regexMatchesStart (make_prefix_case_insensitive ".") ".ChEcK X".toList = true ∧
    regexMatchesStart (make_prefix_case_insensitive ".") "!check X".toList = false := by
  refine ⟨?_, ?_, by decide, by decide, by decide, by decide⟩
  · intro c d hc
    rw [if_pos hc]
    simp [atomMatches]
  · intro c d hc
    rw [if_neg hc]
    simp [atomMatches]

/-- Witness for C6 at concrete characters: the fragment for the letter `c`
accepts `C` and `c` and the fragment for `.` accepts only `.`. -/
theorem make_prefix_case_insensitive_spec_witness :
    ('c'.isAlpha = true ∧
      (atomMatches (if 'c'.isAlpha then RegexAtom.caseClass 'c'
                    else RegexAtom.literal 'c') 'C' = true ↔
        ('C' = 'c'.toUpper ∨ 'C' = 'c'.toLower))) ∧
    (¬ '.'.isAlpha = true ∧
      (atomMatches (if '.'.isAlpha then RegexAtom.caseClass '.'
                    else RegexAtom.literal '.') '!' = true ↔ '!' = '.')) ∧
    regexMatchesStart (make_prefix_case_insensitive ".") ".check X".toList = true :=
  ⟨⟨by decide, make_prefix_case_insensitive_spec.1 'c' 'C' (by decide)⟩,
   ⟨by decide, make_prefix_case_insensitive_spec.2.1 '.' '!' (by decide)⟩,
   make_prefix_case_insensitive_spec.2.2.1⟩

/-! ## Built-in command patterns (src/main.py `register_transaction_commands`)

The handlers are registered with the literal regex patterns
`^/check\s+(\S+)$` and `^/clean$`.  Neither pattern mentions
`COMMAND_PREFIX` (the function takes no prefix argument) and neither is
compiled with `re.IGNORECASE`, so the prefix is the hardcoded `/` and the
keyword is matched case-sensitively.  `\s`/`\S` are modelled over the ASCII
whitespace characters Python's `re` recognises. -/

def isPyWs (c : Char) : Bool :=
  c == ' ' || c == '\t' || c == '\n' || c == '\r' ||
  c == (Char.ofNat 11) || c == (Char.ofNat 12)

/-- Consume a literal character sequence at the start of the input. -/
def consumeLiteral : List Char → List Char → Option (List Char)
  | [], s => some s
  | _ :: _, [] => none
  | c :: cs, d :: ds => if d == c then consumeLiteral cs ds else none

/-- The `\s+(\S+)$` tail of the check pattern on what follows `/check`:
one or more whitespace characters, then one or more non-whitespace
characters, then end of string.  Since `\s` and `\S` are disjoint, greedy
consumption is exact. -/
def matchesCheckRest (rest : List Char) : Bool :=
  !(rest.takeWhile isPyWs).isEmpty && !(rest.dropWhile isPyWs).isEmpty &&
    (rest.dropWhile isPyWs).all (fun c => !isPyWs c)

/-- `^/check\s+(\S+)$`: the literal `/check` followed by `\s+(\S+)$`. -/
def matchesCheckPattern (s : String) : Bool :=
  (consumeLiteral "/check".toList s.toList).elim false matchesCheckRest

/-- `^/clean$`: exactly the literal `/clean`. -/
def matchesCleanPattern (s : String) : Bool :=
  s == "/clean"

/-- C4 counterexample -- with the default configured prefix `"."`, the
messages `".check DBR3IBG8W3"` and `".clean"` do not trigger the built-in
handlers (their patterns hardcode `/`), and even under `/` the keyword is
case-sensitive: `"/CHECK DBR3IBG8W3"` does not match. -/
theorem builtin_commands_ignore_configured_prefix :
    matchesCheckPattern ".check DBR3IBG8W3" = false ∧
    matchesCleanPattern ".clean" = false ∧
    matchesCheckPattern "/CHECK DBR3IBG8W3" = false ∧
    matchesCleanPattern "/CLEAN" = false ∧
    matchesCheckPattern "/check DBR3IBG8W3" = true ∧
    matchesCleanPattern "/clean" = true := by
  decide

theorem consumeLiteral_append (cs s : List Char) :
    consumeLiteral cs (cs ++ s) = some s := by
  induction cs with
  | nil => rfl
  | cons c cs ih => simp [consumeLiteral, ih]

theorem consumeLiteral_eq_some (cs s r : List Char)
    (h : consumeLiteral cs s = some r) : s = cs ++ r := by
  induction cs generalizing s with
  | nil =>
    simp [consumeLiteral] at h
    simp [h]
  | cons c cs ih =>
    match s with
    | [] => simp [consumeLiteral] at h
    | d :: ds =>
      simp only [consumeLiteral] at h
      by_cases hd : d == c
      · rw [if_pos hd] at h
        have := ih ds h
        simp only [List.cons_append]
        rw [← this, (by simpa using hd : d = c)]
      · rw [if_neg hd] at h
        exact absurd h (by simp)

theorem takeWhile_of_split (p : Char → Bool) (ws arg : List Char)
    (hws : ∀ c ∈ ws, p c = true) (harg : ∀ c ∈ arg, p c = false) :
    (ws ++ arg).takeWhile p = ws ∧ (ws ++ arg).dropWhile p = arg := by
  induction ws with
  | nil =>
    simp only [List.nil_append]
    match arg with
    | [] => exact ⟨rfl, rfl⟩
    | c :: cs =>
      have hc : p c = false := harg c (by simp)
      simp [List.takeWhile, List.dropWhile, hc]
  | cons w ws ih =>
    have hw : p w = true := hws w (by simp)
    have ih' := ih (fun c hc => hws c (by simp [hc]))
    simp [List.takeWhile, List.dropWhile, hw, ih'.1, ih'.2]

/-- C4 amended -- the built-in `check` and `clean` handlers are matched
against the fixed case-sensitive patterns `^/check\s+(\S+)$` and `^/clean$`:
a message triggers `check` iff it is the literal `/check`, then at least one
whitespace character, then a non-empty whitespace-free argument; a message
triggers `clean` iff it is exactly `/clean`.  The configured
`COMMAND_PREFIX` plays no role in these patterns (they are constants, and
the keyword casing is fixed). -/
theorem builtin_command_patterns_characterised (s : String) :
    (matchesCheckPattern s = true ↔
      ∃ ws arg : List Char, ws ≠ [] ∧ (∀ c ∈ ws, isPyWs c = true) ∧
        arg ≠ [] ∧ (∀ c ∈ arg, isPyWs c = false) ∧
        s.toList = "/check".toList ++ (ws ++ arg)) ∧
    (matchesCleanPattern s = true ↔ s = "/clean") := by
  constructor
  · constructor
    · intro h
      unfold matchesCheckPattern at h
      cases hc : consumeLiteral "/check".toList s.toList with
      | none => rw [hc] at h; exact absurd h (by simp [Option.elim])
      | some rest =>
        rw [hc] at h
        simp only [Option.elim] at h
        unfold matchesCheckRest at h
        simp only [Bool.and_eq_true, Bool.not_eq_true'] at h
        obtain ⟨⟨hws, harg⟩, hall⟩ := h
        have hwsne : rest.takeWhile isPyWs ≠ [] := by
          intro hnil; rw [hnil] at hws; exact absurd hws (by simp)
        have hargne : rest.dropWhile isPyWs ≠ [] := by
          intro hnil; rw [hnil] at harg; exact absurd harg (by simp)
        refine ⟨rest.takeWhile isPyWs, rest.dropWhile isPyWs, hwsne, ?_,
          hargne, ?_, ?_⟩
        · intro c hcmem
          exact List.mem_takeWhile_imp hcmem
        · intro c hcmem
          have := List.all_eq_true.mp hall c hcmem
          simpa using this
        · rw [List.takeWhile_append_dropWhile]
          exact consumeLiteral_eq_some _ _ _ hc
    · rintro ⟨ws, arg, hwsne, hws, hargne, harg, hsplit⟩
      unfold matchesCheckPattern
      rw [hsplit, consumeLiteral_append]
      simp only [Option.elim]
      unfold matchesCheckRest
      have hta := takeWhile_of_split isPyWs ws arg hws harg
      rw [hta.1, hta.2]
      simp only [Bool.and_eq_true, Bool.not_eq_true', List.all_eq_true]
      refine ⟨⟨by simpa using hwsne, by simpa using hargne⟩, ?_⟩
      intro c hcmem
      simp [harg c hcmem]
  · constructor
    · intro h
      exact eq_of_beq h
    · intro h
      rw [h]
      rfl

/-! ## Session retry loop (src/main.py `main`)

`main` runs `while retry_count < max_retries` with `max_retries = 5`.  One
loop iteration connects, registers the built-in handlers on the module-level
`client`, loads modules, resets `retry_count` to 0, and blocks in
`run_until_disconnected`; its outcome is classified by which exception (if
any) escapes the `try` body and where it is raised:
  * `earlyFail e`  -- raised before `register_transaction_commands()`
                      (e.g. in `client.start()` or `get_me`);
  * `midFail e`    -- raised after registration but before the
                      `retry_count = 0` reset (e.g. in `load_all_commands`);
  * `ranThen r`    -- registration and reset happened and
                      `run_until_disconnected` ended as `r` (clean
                      disconnect hits the `break`, an exception is dispatched
                      to the handlers below).
The `except` arms: `FloodWaitError` and the generic `Exception` increment
`retry_count` and break out when it has reached `max_retries`;
`AuthKeyError`, `SessionPasswordNeededError` and `KeyboardInterrupt` break
immediately.  Handlers registered with `client.on` accumulate on the
`client` object, which persists across loop iterations. -/

inductive ExcClass
  | flood | authKey | twoFA | keyboard | other
deriving DecidableEq, Repr

inductive RunEnd
  | disconnected
  | exc (e : ExcClass)
deriving DecidableEq, Repr

inductive IterOutcome
  | earlyFail (e : ExcClass)
  | midFail (e : ExcClass)
  | ranThen (r : RunEnd)
deriving DecidableEq, Repr

/-- A handler binding added by `register_transaction_commands` (one per
`@client.on(...)` decorator). -/
inductive BuiltinHandler
  | check | clean
deriving DecidableEq, Repr

structure BotState where
  retryCount : ℕ
  handlers : List BuiltinHandler
  connectAttempts : ℕ
  registrations : ℕ
  terminated : Bool
deriving DecidableEq, Repr

def max_retries : ℕ := 5

def initialBotState : BotState :=
  { retryCount := 0, handlers := [], connectAttempts := 0,
    registrations := 0, terminated := false }

/-- `register_transaction_commands()`: two more `client.on` bindings are
added to the (persistent) client. -/
def registerBuiltins (s : BotState) : BotState :=
  { s with handlers := s.handlers ++ [BuiltinHandler.check, BuiltinHandler.clean],
           registrations := s.registrations + 1 }

/-- The shared body of the `FloodWaitError` and generic `Exception` arms:
`retry_count += 1`, then continue when still below `max_retries` and break
out of the loop otherwise. -/
def bumpRetry (s : BotState) : BotState :=
  if s.retryCount + 1 < max_retries then { s with retryCount := s.retryCount + 1 }
  else { s with retryCount := s.retryCount + 1, terminated := true }

/-- The `except` arms of the loop body, applied to the state current when
the exception is handled. -/
def handleExc (s : BotState) : ExcClass → BotState
  | ExcClass.flood => bumpRetry s
  | ExcClass.other => bumpRetry s
  | ExcClass.authKey => { s with terminated := true }
  | ExcClass.twoFA => { s with terminated := true }
  | ExcClass.keyboard => { s with terminated := true }

/-- The `try` body after a connection attempt has started, by outcome. -/
def botIter (s : BotState) : IterOutcome → BotState
  | IterOutcome.earlyFail e => handleExc s e
  | IterOutcome.midFail e => handleExc (registerBuiltins s) e
  | IterOutcome.ranThen RunEnd.disconnected =>
      { registerBuiltins s with retryCount := 0, terminated := true }
  | IterOutcome.ranThen (RunEnd.exc e) =>
      handleExc { registerBuiltins s with retryCount := 0 } e

/-- One round of the `while` loop: the loop-condition check (a false
condition leaves the loop) followed by the `try` body with outcome `o`.
Once the loop has been left the process state no longer changes. -/
def botStep (s : BotState) (o : IterOutcome) : BotState :=
  if s.terminated then s
  else if max_retries ≤ s.retryCount then { s with terminated := true }
  else botIter { s with connectAttempts := s.connectAttempts + 1 } o

def botRun (os : List IterOutcome) : BotState :=
  os.foldl botStep initialBotState

theorem handleExc_bound (s : BotState) (e : ExcClass)
    (h : s.retryCount < max_retries) :
    (handleExc s e).retryCount ≤ max_retries ∧
    ((handleExc s e).terminated = false → (handleExc s e).retryCount < max_retries) := by
  cases e
  case flood =>
    simp only [handleExc, bumpRetry]
    split_ifs with hif
    · exact ⟨by show s.retryCount + 1 ≤ max_retries; omega, fun _ => hif⟩
    · refine ⟨by show s.retryCount + 1 ≤ max_retries; omega, fun hh => ?_⟩
      simp at hh
  case other =>
    simp only [handleExc, bumpRetry]
    split_ifs with hif
    · exact ⟨by show s.retryCount + 1 ≤ max_retries; omega, fun _ => hif⟩
    · refine ⟨by show s.retryCount + 1 ≤ max_retries; omega, fun hh => ?_⟩
      simp at hh
  case authKey =>
    refine ⟨Nat.le_of_lt h, fun hh => ?_⟩
    simp [handleExc] at hh
  case twoFA =>
    refine ⟨Nat.le_of_lt h, fun hh => ?_⟩
    simp [handleExc] at hh
  case keyboard =>
    refine ⟨Nat.le_of_lt h, fun hh => ?_⟩
    simp [handleExc] at hh

theorem botStep_preserves_bound (s : BotState) (o : IterOutcome)
    (h1 : s.retryCount ≤ max_retries)
    (h2 : s.terminated = false → s.retryCount < max_retries) :
    (botStep s o).retryCount ≤ max_retries ∧
    ((botStep s o).terminated = false → (botStep s o).retryCount < max_retries) := by
  by_cases ht : s.terminated = true
  · rw [botStep, if_pos ht]
    refine ⟨h1, fun hfalse => ?_⟩
    rw [ht] at hfalse
    exact absurd hfalse (by decide)
  · have hf : s.terminated = false := by simpa using ht
    have hlt : s.retryCount < max_retries := h2 hf
    rw [botStep, if_neg ht, if_neg (by omega)]
    cases o with
    | earlyFail e =>
      simp only [botIter]
      exact handleExc_bound _ e hlt
    | midFail e =>
      simp only [botIter]
      exact handleExc_bound _ e hlt
    | ranThen r =>
      cases r with
      | disconnected =>
        simp only [botIter]
        exact ⟨by simp [max_retries], fun hh => absurd hh (by decide)⟩
      | exc e =>
        simp only [botIter]
        exact handleExc_bound _ e (by simp [max_retries])

theorem botRun_aux_bound (os : List IterOutcome) (s : BotState)
    (h1 : s.retryCount ≤ max_retries)
    (h2 : s.terminated = false → s.retryCount < max_retries) :
    (os.foldl botStep s).retryCount ≤ max_retries ∧
    ((os.foldl botStep s).terminated = false →
      (os.foldl botStep s).retryCount < max_retries) := by
  induction os generalizing s with
  | nil => exact ⟨h1, h2⟩
  | cons o os ih =>
    rw [List.foldl_cons]
    have h := botStep_preserves_bound s o h1 h2
    exact ih (botStep s o) h.1 h.2

/-- C3 -- The session retry counter never exceeds `max_retries = 5`: for
every sequence of loop-iteration outcomes the counter stays at most 5 and is
strictly below 5 whenever the loop is still live (so every increment happens
from a value below the maximum, and an increment that reaches the maximum
forces the terminated state); the terminated state is absorbing, so no
further connection attempt is made after it. -/
theorem retry_count_never_exceeds_max (os : List IterOutcome) :
    (botRun os).retryCount ≤ max_retries ∧
    ((botRun os).terminated = false → (botRun os).retryCount < max_retries) ∧
    (∀ s : BotState, ∀ o : IterOutcome, s.terminated = true → botStep s o = s) := by
  have h := botRun_aux_bound os initialBotState (by simp [initialBotState, max_retries])
    (by simp [initialBotState, max_retries])
  refine ⟨h.1, h.2, ?_⟩
  intro s o hs
  rw [botStep, if_pos hs]

/-- Witness for C3: a concrete run (a flood wait during connection, then a
connected iteration ending in an unexpected error) keeps the counter at most
5, and a concrete terminated state is left unchanged by a further
iteration. -/
theorem retry_count_never_exceeds_max_witness :
    (botRun [IterOutcome.earlyFail ExcClass.flood,
             IterOutcome.ranThen (RunEnd.exc ExcClass.other)]).retryCount ≤
      max_retries ∧
    botStep { retryCount := 5, handlers := [], connectAttempts := 9,
              registrations := 0, terminated := true }
        (IterOutcome.earlyFail ExcClass.flood) =
      { retryCount := 5, handlers := [], connectAttempts := 9,
        registrations := 0, terminated := true } :=
  ⟨(retry_count_never_exceeds_max
      [IterOutcome.earlyFail ExcClass.flood,
       IterOutcome.ranThen (RunEnd.exc ExcClass.other)]).1,
   (retry_count_never_exceeds_max []).2.2
     { retryCount := 5, handlers := [], connectAttempts := 9,
       registrations := 0, terminated := true }
     (IterOutcome.earlyFail ExcClass.flood) rfl⟩

/-- C5 counterexample -- a reconnect after an unexpected runtime error makes
`register_transaction_commands` run again on the same persistent client: in
the run [connected iteration ending in an unexpected error, connected
iteration ending in a clean disconnect] the built-in `check` pattern ends up
with two bindings (and `clean` likewise), so re-registration on a reconnect
does create duplicate handler bindings for the same pattern. -/
theorem reconnect_duplicates_builtin_handlers :
    (botRun [IterOutcome.ranThen (RunEnd.exc ExcClass.other),
             IterOutcome.ranThen RunEnd.disconnected]).handlers =
      [BuiltinHandler.check, BuiltinHandler.clean,
       BuiltinHandler.check, BuiltinHandler.clean] ∧
    (botRun [IterOutcome.ranThen (RunEnd.exc ExcClass.other),
             IterOutcome.ranThen RunEnd.disconnected]).registrations = 2 ∧
    (botRun [IterOutcome.ranThen (RunEnd.exc ExcClass.other),
             IterOutcome.ranThen RunEnd.disconnected]).handlers.count
        BuiltinHandler.check = 2 := by
  decide

def handlerInv (s : BotState) : Prop :=
  s.handlers.count BuiltinHandler.check = s.registrations ∧
  s.handlers.count BuiltinHandler.clean = s.registrations ∧
  s.handlers.length = 2 * s.registrations

theorem handleExc_preserves_handlers (s : BotState) (e : ExcClass) :
    (handleExc s e).handlers = s.handlers ∧
    (handleExc s e).registrations = s.registrations := by
  cases e <;>
    first
      | (simp only [handleExc, bumpRetry]; split_ifs <;> exact ⟨rfl, rfl⟩)
      | exact ⟨rfl, rfl⟩

theorem registerBuiltins_handlerInv (s : BotState) (h : handlerInv s) :
    handlerInv (registerBuiltins s) := by
  obtain ⟨hc, hl, hn⟩ := h
  have hcc : List.count BuiltinHandler.check
      [BuiltinHandler.check, BuiltinHandler.clean] = 1 := by decide
  have hll : List.count BuiltinHandler.clean
      [BuiltinHandler.check, BuiltinHandler.clean] = 1 := by decide
  refine ⟨?_, ?_, ?_⟩
  · show (s.handlers ++ [BuiltinHandler.check, BuiltinHandler.clean]).count
      BuiltinHandler.check = s.registrations + 1
    rw [List.count_append, hc, hcc]
  · show (s.handlers ++ [BuiltinHandler.check, BuiltinHandler.clean]).count
      BuiltinHandler.clean = s.registrations + 1
    rw [List.count_append, hl, hll]
  · show (s.handlers ++ [BuiltinHandler.check, BuiltinHandler.clean]).length =
      2 * (s.registrations + 1)
    have h2 : ([BuiltinHandler.check, BuiltinHandler.clean] :
        List BuiltinHandler).length = 2 := rfl
    rw [List.length_append, hn, h2]
    omega

theorem botStep_handlerInv (s : BotState) (o : IterOutcome)
    (h : handlerInv s) : handlerInv (botStep s o) := by
  by_cases ht : s.terminated = true
  · rw [botStep, if_pos ht]
    exact h
  · rw [botStep, if_neg ht]
    by_cases hr : max_retries ≤ s.retryCount
    · rw [if_pos hr]
      exact h
    · rw [if_neg hr]
      have h1 : handlerInv { s with connectAttempts := s.connectAttempts + 1 } := h
      have hreg := registerBuiltins_handlerInv _ h1
      cases o with
      | earlyFail e =>
        simp only [botIter]
        have he := handleExc_preserves_handlers
          { s with connectAttempts := s.connectAttempts + 1 } e
        unfold handlerInv
        rw [he.1, he.2]
        exact h1
      | midFail e =>
        simp only [botIter]
        have he := handleExc_preserves_handlers
          (registerBuiltins { s with connectAttempts := s.connectAttempts + 1 }) e
        unfold handlerInv
        rw [he.1, he.2]
        exact hreg
      | ranThen r =>
        cases r with
        | disconnected =>
          simp only [botIter]
          exact hreg
        | exc e =>
          simp only [botIter]
          have he := handleExc_preserves_handlers
            { registerBuiltins { s with connectAttempts := s.connectAttempts + 1 } with
              retryCount := 0 } e
          unfold handlerInv
          rw [he.1, he.2]
          exact hreg

/-- C5 amended -- registration of the built-in handlers happens exactly once
per loop iteration that reaches the connected phase, but the bindings
accumulate on the persistent client: after any run, each built-in pattern
has exactly as many bindings as there were iterations reaching registration
(so a reconnect adds a second binding per pattern rather than being
idempotent). -/
theorem builtin_registration_once_per_connection (os : List IterOutcome) :
    (botRun os).handlers.count BuiltinHandler.check = (botRun os).registrations ∧
    (botRun os).handlers.count BuiltinHandler.clean = (botRun os).registrations ∧
    (botRun os).handlers.length = 2 * (botRun os).registrations := by
  have base : handlerInv initialBotState := by
    refine ⟨rfl, rfl, rfl⟩
  have haux : ∀ l : List IterOutcome, ∀ s : BotState, handlerInv s →
      handlerInv (l.foldl botStep s) := by
    intro l
    induction l with
    | nil => intro s hs; exact hs
    | cons o l ih =>
      intro s hs
      rw [List.foldl_cons]
      exact ih (botStep s o) (botStep_handlerInv s o hs)
  exact haux os initialBotState base

/-! ## Concurrent initialization (src/firestoredb.py `init_database`)

`init_database` uses double-checked locking over the module globals
`_db_initialized` (the flag) and `_init_lock` (a mutex):

    if _db_initialized: return True            -- checkFlag
    with _init_lock:                           -- acquire (blocks)
        if _db_initialized: return True        -- checkFlag2 (returns release)
        ...create table and index...           -- createSchema
        _db_initialized = True; return True    -- setFlagRelease

Each of N threads runs this program; one interleaved execution is a sequence
of atomic statements, modelled as a labelled transition system: a state
holds every thread's program counter, the lock owner, the flag and the
number of times the schema-creation block has run.  The claim presupposes
the underlying engine succeeds, so the `except` arm (which returns `False`
without setting the flag) is not part of the success-path model. -/

inductive InitPC
  | checkFlag | acquire | checkFlag2 | createSchema | setFlagRelease
  | done (result : Bool)
deriving DecidableEq, Repr

structure InitState (n : ℕ) where
  pc : Fin n → InitPC
  lock : Option (Fin n)
  flag : Bool
  schemaCreations : ℕ

def initInitState (n : ℕ) : InitState n :=
  { pc := fun _ => InitPC.checkFlag, lock := none, flag := false,
    schemaCreations := 0 }

/-- One atomic statement executed by one thread. -/
inductive initStep (n : ℕ) : InitState n → InitState n → Prop
  | fastHit (s : InitState n) (t : Fin n) :
      s.pc t = InitPC.checkFlag → s.flag = true →
      initStep n s { s with pc := Function.update s.pc t (InitPC.done true) }
  | fastMiss (s : InitState n) (t : Fin n) :
      s.pc t = InitPC.checkFlag → s.flag = false →
      initStep n s { s with pc := Function.update s.pc t InitPC.acquire }
  | acquireLock (s : InitState n) (t : Fin n) :
      s.pc t = InitPC.acquire → s.lock = none →
      initStep n s { s with pc := Function.update s.pc t InitPC.checkFlag2,
                            lock := some t }
  | slowHit (s : InitState n) (t : Fin n) :
      s.pc t = InitPC.checkFlag2 → s.flag = true →
      initStep n s { s with pc := Function.update s.pc t (InitPC.done true),
                            lock := none }
  | slowMiss (s : InitState n) (t : Fin n) :
      s.pc t = InitPC.checkFlag2 → s.flag = false →
      initStep n s { s with pc := Function.update s.pc t InitPC.createSchema }
  | createTable (s : InitState n) (t : Fin n) :
      s.pc t = InitPC.createSchema →
      initStep n s { s with pc := Function.update s.pc t InitPC.setFlagRelease,
                            schemaCreations := s.schemaCreations + 1 }
  | setFlag (s : InitState n) (t : Fin n) :
      s.pc t = InitPC.setFlagRelease →
      initStep n s { s with pc := Function.update s.pc t (InitPC.done true),
                            flag := true, lock := none }

def initReachable (n : ℕ) (s : InitState n) : Prop :=
  Relation.ReflTransGen (initStep n) (initInitState n) s

/-- Program counters at which the thread is inside the `with _init_lock`
block. -/
def inCritical : InitPC → Prop
  | InitPC.checkFlag2 => True
  | InitPC.createSchema => True
  | InitPC.setFlagRelease => True
  | _ => False

/-- The inductive invariant of the transition system. -/
structure InitInv (n : ℕ) (s : InitState n) : Prop where
  lockInv : ∀ t, inCritical (s.pc t) → s.lock = some t
  flagFalseInv : ∀ t, s.pc t = InitPC.createSchema ∨
    s.pc t = InitPC.setFlagRelease → s.flag = false
  countInv :
    (s.flag = false ∧ (∀ t, s.pc t ≠ InitPC.setFlagRelease) ∧
      s.schemaCreations = 0) ∨
    (s.flag = false ∧ (∃ t, s.pc t = InitPC.setFlagRelease) ∧
      s.schemaCreations = 1) ∨
    (s.flag = true ∧ s.schemaCreations = 1)
  doneInv : ∀ t b, s.pc t = InitPC.done b → b = true ∧ s.flag = true

theorem initInv_start (n : ℕ) : InitInv n (initInitState n) := by
  refine ⟨?_, ?_, ?_, ?_⟩
  · intro t hc
    exact absurd hc (by simp [initInitState, inCritical])
  · intro t ht
    rfl
  · exact Or.inl ⟨rfl, fun t => by simp [initInitState], rfl⟩
  · intro t b hb
    exact absurd hb (by simp [initInitState])

theorem initStep_inv {n : ℕ} {s s' : InitState n} (hs : initStep n s s')
    (h : InitInv n s) : InitInv n s' := by
  obtain ⟨hlock, hff, hcount, hdone⟩ := h
  cases hs with
  | fastHit t hpc hflag =>
    refine ⟨?_, ?_, ?_, ?_⟩ <;> dsimp only
    · intro u hu
      by_cases hut : u = t
      · subst hut
        rw [Function.update_same] at hu
        exact absurd hu (by simp [inCritical])
      · rw [Function.update_noteq hut] at hu
        exact hlock u hu
    · intro u hu
      by_cases hut : u = t
      · subst hut
        rw [Function.update_same] at hu
        rcases hu with hu | hu <;> exact absurd hu (by simp)
      · rw [Function.update_noteq hut] at hu
        exact hff u hu
    · rcases hcount with ⟨hf, _, _⟩ | ⟨hf, _, _⟩ | ⟨hf, hc⟩
      · rw [hf] at hflag; exact absurd hflag (by simp)
      · rw [hf] at hflag; exact absurd hflag (by simp)
      · exact Or.inr (Or.inr ⟨hf, hc⟩)
    · intro u b hu
      by_cases hut : u = t
      · subst hut
        rw [Function.update_same] at hu
        exact ⟨by injection hu with hb; exact hb.symm, hflag⟩
      · rw [Function.update_noteq hut] at hu
        exact hdone u b hu
  | fastMiss t hpc hflag =>
    refine ⟨?_, ?_, ?_, ?_⟩ <;> dsimp only
    · intro u hu
      by_cases hut : u = t
      · subst hut
        rw [Function.update_same] at hu
        exact absurd hu (by simp [inCritical])
      · rw [Function.update_noteq hut] at hu
        exact hlock u hu
    · intro u hu
      exact hflag
    · rcases hcount with ⟨hf, hns, hc⟩ | ⟨hf, ⟨w, hw⟩, hc⟩ | ⟨hf, hc⟩
      · refine Or.inl ⟨hf, ?_, hc⟩
        intro u
        by_cases hut : u = t
        · subst hut
          rw [Function.update_same]
          simp
        · rw [Function.update_noteq hut]
          exact hns u
      · refine Or.inr (Or.inl ⟨hf, ⟨w, ?_⟩, hc⟩)
        have hwt : w ≠ t := by
          intro hwt
          rw [hwt, hpc] at hw
          exact absurd hw (by simp)
        rw [Function.update_noteq hwt]
        exact hw
      · rw [hf] at hflag; exact absurd hflag (by simp)
    · intro u b hu
      by_cases hut : u = t
      · subst hut
        rw [Function.update_same] at hu
        exact absurd hu (by simp)
      · rw [Function.update_noteq hut] at hu
        exact hdone u b hu
  | acquireLock t hpc hl =>
    refine ⟨?_, ?_, ?_, ?_⟩ <;> dsimp only
    · intro u hu
      by_cases hut : u = t
      · subst hut; rfl
      · rw [Function.update_noteq hut] at hu
        have := hlock u hu
        rw [hl] at this
        exact absurd this (by simp)
    · intro u hu
      by_cases hut : u = t
      · subst hut
        rw [Function.update_same] at hu
        rcases hu with hu | hu <;> exact absurd hu (by simp)
      · rw [Function.update_noteq hut] at hu
        exact hff u hu
    · rcases hcount with ⟨hf, hns, hc⟩ | ⟨hf, ⟨w, hw⟩, hc⟩ | ⟨hf, hc⟩
      · refine Or.inl ⟨hf, ?_, hc⟩
        intro u
        by_cases hut : u = t
        · subst hut
          rw [Function.update_same]
          simp
        · rw [Function.update_noteq hut]
          exact hns u
      · have := hlock w (by rw [hw]; exact trivial)
        rw [hl] at this
        exact absurd this (by simp)
      · exact Or.inr (Or.inr ⟨hf, hc⟩)
    · intro u b hu
      by_cases hut : u = t
      · subst hut
        rw [Function.update_same] at hu
        exact absurd hu (by simp)
      · rw [Function.update_noteq hut] at hu
        exact hdone u b hu
  | slowHit t hpc hflag =>
    refine ⟨?_, ?_, ?_, ?_⟩ <;> dsimp only
    · intro u hu
      by_cases hut : u = t
      · subst hut
        rw [Function.update_same] at hu
        exact absurd hu (by simp [inCritical])
      · rw [Function.update_noteq hut] at hu
        have hu' := hlock u hu
        have ht' := hlock t (by rw [hpc]; exact trivial)
        rw [hu'] at ht'
        injection ht' with ht''
        exact absurd ht'' hut
    · intro u hu
      by_cases hut : u = t
      · subst hut
        rw [Function.update_same] at hu
        rcases hu with hu | hu <;> exact absurd hu (by simp)
      · rw [Function.update_noteq hut] at hu
        exact hff u hu
    · rcases hcount with ⟨hf, _, _⟩ | ⟨hf, _, _⟩ | ⟨hf, hc⟩
      · rw [hf] at hflag; exact absurd hflag (by simp)
      · rw [hf] at hflag; exact absurd hflag (by simp)
      · exact Or.inr (Or.inr ⟨hf, hc⟩)
    · intro u b hu
      by_cases hut : u = t
      · subst hut
        rw [Function.update_same] at hu
        exact ⟨by injection hu with hb; exact hb.symm, hflag⟩
      · rw [Function.update_noteq hut] at hu
        exact hdone u b hu
  | slowMiss t hpc hflag =>
    refine ⟨?_, ?_, ?_, ?_⟩ <;> dsimp only
    · intro u hu
      by_cases hut : u = t
      · subst hut
        exact hlock u (by rw [hpc]; exact trivial)
      · rw [Function.update_noteq hut] at hu
        exact hlock u hu
    · intro u hu
      exact hflag
    · rcases hcount with ⟨hf, hns, hc⟩ | ⟨hf, ⟨w, hw⟩, hc⟩ | ⟨hf, hc⟩
      · refine Or.inl ⟨hf, ?_, hc⟩
        intro u
        by_cases hut : u = t
        · subst hut
          rw [Function.update_same]
          simp
        · rw [Function.update_noteq hut]
          exact hns u
      · refine Or.inr (Or.inl ⟨hf, ⟨w, ?_⟩, hc⟩)
        have hwt : w ≠ t := by
          intro hwt
          rw [hwt, hpc] at hw
          exact absurd hw (by simp)
        rw [Function.update_noteq hwt]
        exact hw
      · rw [hf] at hflag; exact absurd hflag (by simp)
    · intro u b hu
      by_cases hut : u = t
      · subst hut
        rw [Function.update_same] at hu
        exact absurd hu (by simp)
      · rw [Function.update_noteq hut] at hu
        exact hdone u b hu
  | createTable t hpc =>
    have hflag : s.flag = false := hff t (Or.inl hpc)
    refine ⟨?_, ?_, ?_, ?_⟩ <;> dsimp only
    · intro u hu
      by_cases hut : u = t
      · subst hut
        exact hlock u (by rw [hpc]; exact trivial)
      · rw [Function.update_noteq hut] at hu
        exact hlock u hu
    · intro u hu
      exact hflag
    · rcases hcount with ⟨hf, hns, hc⟩ | ⟨hf, ⟨w, hw⟩, hc⟩ | ⟨hf, hc⟩
      · refine Or.inr (Or.inl ⟨hf, ⟨t, ?_⟩, by rw [hc]⟩)
        rw [Function.update_same]
      · have hu' := hlock w (by rw [hw]; exact trivial)
        have ht' := hlock t (by rw [hpc]; exact trivial)
        rw [hu'] at ht'
        injection ht' with ht''
        rw [← ht'', hw] at hpc
        exact absurd hpc (by simp)
      · rw [hf] at hflag; exact absurd hflag (by simp)
    · intro u b hu
      by_cases hut : u = t
      · subst hut
        rw [Function.update_same] at hu
        exact absurd hu (by simp)
      · rw [Function.update_noteq hut] at hu
        exact hdone u b hu
  | setFlag t hpc =>
    have hflag : s.flag = false := hff t (Or.inr hpc)
    refine ⟨?_, ?_, ?_, ?_⟩ <;> dsimp only
    · intro u hu
      by_cases hut : u = t
      · subst hut
        rw [Function.update_same] at hu
        exact absurd hu (by simp [inCritical])
      · rw [Function.update_noteq hut] at hu
        have hu' := hlock u hu
        have ht' := hlock t (by rw [hpc]; exact trivial)
        rw [hu'] at ht'
        injection ht' with ht''
        exact absurd ht'' hut
    · intro u hu
      by_cases hut : u = t
      · subst hut
        rw [Function.update_same] at hu
        rcases hu with hu | hu <;> exact absurd hu (by simp)
      · rw [Function.update_noteq hut] at hu
        rcases hu with hu | hu
        · have hu' := hlock u (by rw [hu]; exact trivial)
          have ht' := hlock t (by rw [hpc]; exact trivial)
          rw [hu'] at ht'
          injection ht' with ht''
          exact absurd ht'' hut
        · have hu' := hlock u (by rw [hu]; exact trivial)
          have ht' := hlock t (by rw [hpc]; exact trivial)
          rw [hu'] at ht'
          injection ht' with ht''
          exact absurd ht'' hut
    · rcases hcount with ⟨hf, hns, hc⟩ | ⟨hf, ⟨w, hw⟩, hc⟩ | ⟨hf, hc⟩
      · exact absurd hpc (hns t)
      · exact Or.inr (Or.inr ⟨rfl, hc⟩)
      · rw [hf] at hflag; exact absurd hflag (by simp)
    · intro u b hu
      by_cases hut : u = t
      · subst hut
        rw [Function.update_same] at hu
        exact ⟨by injection hu with hb; exact hb.symm, rfl⟩
      · rw [Function.update_noteq hut] at hu
        exact ⟨(hdone u b hu).1, rfl⟩

theorem initReachable_inv (n : ℕ) (s : InitState n)
    (h : initReachable n s) : InitInv n s := by
  induction h with
  | refl => exact initInv_start n
  | tail hsteps hstep ih => exact initStep_inv hstep ih

/-- C9 -- In every interleaved execution of `init_database` by N threads:
at most one thread is ever inside the `_init_lock` critical section
(concurrent callers block until the holder finishes), the schema-creation
block has run at most once at every reachable state, every completed call
returned `True`, and once every one of the N ≥ 1 threads has completed,
the schema creation has been performed exactly once. -/
theorem init_database_concurrent_once (n : ℕ) (s : InitState n)
    (hr : initReachable n s) :
    (∀ t u : Fin n, inCritical (s.pc t) → inCritical (s.pc u) → t = u) ∧
    s.schemaCreations ≤ 1 ∧
    (∀ t : Fin n, ∀ b : Bool, s.pc t = InitPC.done b → b = true) ∧
    ((∀ t : Fin n, ∃ b : Bool, s.pc t = InitPC.done b) → 0 < n →
      s.schemaCreations = 1) := by
  obtain ⟨hlock, hff, hcount, hdone⟩ := initReachable_inv n s hr
  refine ⟨?_, ?_, ?_, ?_⟩
  · intro t u ht hu
    have h1 := hlock t ht
    have h2 := hlock u hu
    rw [h1] at h2
    injection h2
  · rcases hcount with ⟨_, _, hc⟩ | ⟨_, _, hc⟩ | ⟨_, hc⟩ <;> omega
  · intro t b hb
    exact (hdone t b hb).1
  · intro hall hn
    obtain ⟨b, hb⟩ := hall ⟨0, hn⟩
    have hflag : s.flag = true := (hdone _ b hb).2
    rcases hcount with ⟨hf, _, _⟩ | ⟨hf, _, _⟩ | ⟨_, hc⟩
    · rw [hf] at hflag; exact absurd hflag (by simp)
    · rw [hf] at hflag; exact absurd hflag (by simp)
    · exact hc

/-! A concrete single-thread execution of `init_database`, used as the
witness for the concurrency theorem. -/

def initW0 : InitState 1 := initInitState 1

def initW1 : InitState 1 :=
  { initW0 with pc := Function.update initW0.pc 0 InitPC.acquire }

def initW2 : InitState 1 :=
  { initW1 with pc := Function.update initW1.pc 0 InitPC.checkFlag2,
                lock := some 0 }

def initW3 : InitState 1 :=
  { initW2 with pc := Function.update initW2.pc 0 InitPC.createSchema }

def initW4 : InitState 1 :=
  { initW3 with pc := Function.update initW3.pc 0 InitPC.setFlagRelease,
                schemaCreations := initW3.schemaCreations + 1 }

def initW5 : InitState 1 :=
  { initW4 with pc := Function.update initW4.pc 0 (InitPC.done true),
                flag := true, lock := none }

theorem initW5_reachable : initReachable 1 initW5 :=
  Relation.ReflTransGen.tail
    (Relation.ReflTransGen.tail
      (Relation.ReflTransGen.tail
        (Relation.ReflTransGen.tail
          (Relation.ReflTransGen.tail Relation.ReflTransGen.refl
            (initStep.fastMiss initW0 0 (by decide) (by decide)))
          (initStep.acquireLock initW1 0 (by decide) (by decide)))
        (initStep.slowMiss initW2 0 (by decide) (by decide)))
      (initStep.createTable initW3 0 (by decide)))
    (initStep.setFlag initW4 0 (by decide))

/-- Witness for C9: in the concrete execution where one thread runs
`init_database` to completion, every thread has finished with result `True`
and the schema-creation block has run exactly once. -/
theorem init_database_concurrent_once_witness :
    (∀ t : Fin 1, ∃ b : Bool, initW5.pc t = InitPC.done b) ∧
    initW5.schemaCreations = 1 :=
  ⟨by decide,
   (init_database_concurrent_once 1 initW5 initW5_reachable).2.2.2
     (by decide) (by decide)⟩

end Trxchecker
